import Mathlib

set_option maxRecDepth 100000

/-!
Verification of the fairjs provably-fair derivation library (src/fair.js).

The JavaScript source is shallowly embedded: strings are Lean `String`s
(JS code points), byte values are `Nat`s below 256, JS numbers appearing in
the float pipeline are modelled exactly over `ℚ` (JS binary64 rounding of
decimal literals is idealised away; every claim settled here is robust to
that idealisation), and a JS computation that can produce `NaN` or throw is
modelled with `Option` / `Except`.  The SHA-512 digest used through Node's
`crypto` module is implemented in full so that concrete digests evaluate
inside the kernel.
-/

/-! ## SHA-512 (the digest computed by Node's crypto module) -/

/-- Wraparound modulus for 64-bit words. -/
def M64 : Nat := 2 ^ 64

/-- Right rotation of a 64-bit word. -/
def rotr64 (n x : Nat) : Nat := ((x >>> n) ||| (x <<< (64 - n))) % M64

/-- Bitwise complement of a 64-bit word. -/
def not64 (x : Nat) : Nat := x ^^^ (M64 - 1)

def bigSigma0 (x : Nat) : Nat := rotr64 28 x ^^^ rotr64 34 x ^^^ rotr64 39 x

def bigSigma1 (x : Nat) : Nat := rotr64 14 x ^^^ rotr64 18 x ^^^ rotr64 41 x

def smallSigma0 (x : Nat) : Nat := rotr64 1 x ^^^ rotr64 8 x ^^^ (x >>> 7)

def smallSigma1 (x : Nat) : Nat := rotr64 19 x ^^^ rotr64 61 x ^^^ (x >>> 6)

def chOf (x y z : Nat) : Nat := (x &&& y) ^^^ (not64 x &&& z)

def majOf (x y z : Nat) : Nat := (x &&& y) ^^^ (x &&& z) ^^^ (y &&& z)

/-- The 80 SHA-512 round constants (FIPS 180-4, the 64-bit fractional parts of
the cube roots of the first 80 primes), written in decimal. -/
def sha512K : List Nat :=
  [4794697086780616226, 8158064640168781261, 13096744586834688815, 16840607885511220156,
   4131703408338449720, 6480981068601479193, 10538285296894168987, 12329834152419229976,
   15566598209576043074, 1334009975649890238, 2608012711638119052, 6128411473006802146,
   8268148722764581231, 9286055187155687089, 11230858885718282805, 13951009754708518548,
   16472876342353939154, 17275323862435702243, 1135362057144423861, 2597628984639134821,
   3308224258029322869, 5365058923640841347, 6679025012923562964, 8573033837759648693,
   10970295158949994411, 12119686244451234320, 12683024718118986047, 13788192230050041572,
   14330467153632333762, 15395433587784984357, 489312712824947311, 1452737877330783856,
   2861767655752347644, 3322285676063803686, 5560940570517711597, 5996557281743188959,
   7280758554555802590, 8532644243296465576, 9350256976987008742, 10552545826968843579,
   11727347734174303076, 12113106623233404929, 14000437183269869457, 14369950271660146224,
   15101387698204529176, 15463397548674623760, 17586052441742319658, 1182934255886127544,
   1847814050463011016, 2177327727835720531, 2830643537854262169, 3796741975233480872,
   4115178125766777443, 5681478168544905931, 6601373596472566643, 7507060721942968483,
   8399075790359081724, 8693463985226723168, 9568029438360202098, 10144078919501101548,
   10430055236837252648, 11840083180663258601, 13761210420658862357, 14299343276471374635,
   14566680578165727644, 15097957966210449927, 16922976911328602910, 17689382322260857208,
   500013540394364858, 748580250866718886, 1242879168328830382, 1977374033974150939,
   2944078676154940804, 3659926193048069267, 4368137639120453308, 4836135668995329356,
   5532061633213252278, 6448918945643986474, 6902733635092675308, 7801388544844847127]

/-- An eight-word hash state `(a, b, c, d, e, f, g, h)`. -/
abbrev St8 := Nat × Nat × Nat × Nat × Nat × Nat × Nat × Nat

/-- The SHA-512 initial hash value (FIPS 180-4, the 64-bit fractional parts of
the square roots of the first 8 primes), written in decimal. -/
def sha512Init : St8 :=
  (7640891576956012808, 13503953896175478587, 4354685564936845355, 11912009170470909681,
   5840696475078001361, 11170449401992604703, 2270897969802886507, 6620516959819538809)

/-- Big-endian value of a list of bytes. -/
def bytesToWord (bs : List Nat) : Nat := bs.foldl (fun acc b => acc * 256 + b) 0

/-- The 16 message-schedule words of one 128-byte block. -/
def blockWords (block : List Nat) : Array Nat :=
  ((List.range 16).map (fun i => bytesToWord ((block.drop (8 * i)).take 8))).toArray

/-- Extends the message schedule by `fuel` further words. -/
def extendW : Nat → Array Nat → Array Nat
  | 0, w => w
  | fuel + 1, w =>
    let t := w.size
    let x := (smallSigma1 (w.getD (t - 2) 0) + w.getD (t - 7) 0 +
              smallSigma0 (w.getD (t - 15) 0) + w.getD (t - 16) 0) % M64
    extendW fuel (w.push x)

/-- One SHA-512 compression round with round constant `k` and schedule word `w`. -/
def sha512Round (k w : Nat) (s : St8) : St8 :=
  let (a, b, c, d, e, f, g, h) := s
  let t1 := (h + bigSigma1 e + chOf e f g + k + w) % M64
  let t2 := (bigSigma0 a + majOf a b c) % M64
  ((t1 + t2) % M64, a, b, c, (d + t1) % M64, e, f, g)

/-- Compresses one 128-byte block into the hash state. -/
def processBlock (s : St8) (block : List Nat) : St8 :=
  let w := extendW 64 (blockWords block)
  let (a, b, c, d, e, f, g, h) :=
    (sha512K.zip w.toList).foldl (fun st kw => sha512Round kw.1 kw.2 st) s
  let (a0, b0, c0, d0, e0, f0, g0, h0) := s
  ((a + a0) % M64, (b + b0) % M64, (c + c0) % M64, (d + d0) % M64,
   (e + e0) % M64, (f + f0) % M64, (g + g0) % M64, (h + h0) % M64)

/-- Big-endian byte decomposition of a 64-bit word. -/
def wordToBytesBE (w : Nat) : List Nat :=
  [(w >>> 56) % 256, (w >>> 48) % 256, (w >>> 40) % 256, (w >>> 32) % 256,
   (w >>> 24) % 256, (w >>> 16) % 256, (w >>> 8) % 256, w % 256]

/-- The final SHA-512 hash state of a padded byte message. -/
def sha512Words (msg : List Nat) : St8 :=
  let padZeros := (128 + 112 - ((msg.length + 1) % 128)) % 128
  let lenBytes := (List.range 16).map (fun i => ((8 * msg.length) >>> (8 * (15 - i))) % 256)
  let padded := msg ++ 128 :: (List.replicate padZeros 0 ++ lenBytes)
  let blocks := (List.range (padded.length / 128)).map (fun i => (padded.drop (128 * i)).take 128)
  blocks.foldl processBlock sha512Init

/-- SHA-512 of a byte sequence, as the 64 digest bytes. -/
def sha512Bytes (msg : List Nat) : List Nat :=
  let s := sha512Words msg
  [s.1, s.2.1, s.2.2.1, s.2.2.2.1, s.2.2.2.2.1, s.2.2.2.2.2.1, s.2.2.2.2.2.2.1,
   s.2.2.2.2.2.2.2].flatMap wordToBytesBE

/-- Lowercase hexadecimal digit for a value below 16 (codes 48-57 and 97-102). -/
def hexChar (d : Nat) : Char := if d < 10 then Char.ofNat (48 + d) else Char.ofNat (87 + d)

/-- Two lowercase hex characters per byte, as produced by `digest('hex')`. -/
def hexCharsOfBytes (bs : List Nat) : List Char :=
  bs.flatMap (fun b => [hexChar (b / 16), hexChar (b % 16)])

/-- UTF-8 encoding of one code point (Node's `update(string)` default encoding). -/
def utf8EncodeChar (c : Char) : List Nat :=
  let n := c.toNat
  if n < 0x80 then [n]
  else if n < 0x800 then [0xC0 ||| (n >>> 6), 0x80 ||| (n &&& 0x3F)]
  else if n < 0x10000 then
    [0xE0 ||| (n >>> 12), 0x80 ||| ((n >>> 6) &&& 0x3F), 0x80 ||| (n &&& 0x3F)]
  else
    [0xF0 ||| (n >>> 18), 0x80 ||| ((n >>> 12) &&& 0x3F),
     0x80 ||| ((n >>> 6) &&& 0x3F), 0x80 ||| (n &&& 0x3F)]

/-- UTF-8 encoding of a string. -/
def utf8Encode (cs : List Char) : List Nat := cs.flatMap utf8EncodeChar

/-- The digest hex characters of a string input. -/
def sha512HexChars (s : String) : List Char :=
  hexCharsOfBytes (sha512Bytes (utf8Encode s.data))

/-- Model of `sha512` from src/fair.js: `crypto.createHash('sha512').update(s).digest('hex')`. -/
def sha512 (s : String) : String := String.mk (sha512HexChars s)

/-! ## JS host primitives used by fair.js

`parseInt(s, 16)`, `parseFloat`, `Number.prototype.toFixed`, number-to-string
conversion and `Uint8Array` element coercion are built-in host operations; they
are modelled here following their ECMAScript definitions, restricted to the
shapes fair.js feeds them. -/

/-- JS whitespace skipped by `parseInt` (space, tab, LF, VT, FF, CR). -/
def isJsWs (c : Char) : Bool :=
  c.toNat = 32 || c.toNat = 9 || c.toNat = 10 || c.toNat = 11 || c.toNat = 12 || c.toNat = 13

/-- Value of one hexadecimal digit character, if it is one
(codes 48-57 are `0`-`9`, 97-102 are `a`-`f`, 65-70 are `A`-`F`). -/
def hexDigitVal (c : Char) : Option Nat :=
  if 48 ≤ c.toNat ∧ c.toNat ≤ 57 then some (c.toNat - 48)
  else if 97 ≤ c.toNat ∧ c.toNat ≤ 102 then some (c.toNat - 87)
  else if 65 ≤ c.toNat ∧ c.toNat ≤ 70 then some (c.toNat - 55)
  else none

/-- Accumulates the longest leading run of hex digits (base-16 positional value). -/
def parseHexDigits : List Char → Nat → Nat
  | [], acc => acc
  | c :: cs, acc =>
    match hexDigitVal c with
    | some d => parseHexDigits cs (acc * 16 + d)
    | none => acc

/-- Model of `parseInt(s, 16)`: skip whitespace, optional sign (codes 45 `-`, 43 `+`),
optional `0x`/`0X` (codes 48 then 120/88), then the longest run of hex digits;
`none` models the `NaN` result when no digit is found. -/
def jsParseIntHexList (cs : List Char) : Option Int :=
  let cs1 := cs.dropWhile isJsWs
  let sgn : Int :=
    match cs1 with
    | c :: _ => if c.toNat = 45 then -1 else 1
    | [] => 1
  let cs2 :=
    match cs1 with
    | c :: rest => if c.toNat = 45 ∨ c.toNat = 43 then rest else cs1
    | [] => cs1
  let cs3 :=
    match cs2 with
    | c0 :: c1 :: rest =>
      if c0.toNat = 48 ∧ (c1.toNat = 120 ∨ c1.toNat = 88) then rest else cs2
    | _ => cs2
  match cs3 with
  | [] => none
  | c :: _ => if (hexDigitVal c).isSome then some (sgn * (parseHexDigits cs3 0 : Nat)) else none

/-- Model of `parseInt(s, 16)` on a string. -/
def jsParseIntHex (s : String) : Option Int := jsParseIntHexList s.data

/-- Accumulates the longest leading run of decimal digits together with its length. -/
def parseFracDigits : List Char → Nat → Nat → Nat × Nat
  | [], acc, k => (acc, k)
  | c :: cs, acc, k =>
    if 48 ≤ c.toNat ∧ c.toNat ≤ 57 then parseFracDigits cs (acc * 10 + (c.toNat - 48)) (k + 1)
    else (acc, k)

/-- Model of `parseFloat("0." ++ cs)`: the decimal fraction given by the longest
leading digit run of `cs`, exact over `ℚ`. -/
def jsParseFloatFrac (cs : List Char) : ℚ :=
  let vk := parseFracDigits cs 0 0
  (vk.1 : ℚ) / 10 ^ vk.2

/-- Model of `parseFloat(x.toFixed(p))`: round to `p` decimal digits.  `toFixed`
chooses the larger of two equally near candidates, i.e. rounds halves up. -/
def jsToFixed (x : ℚ) (p : Nat) : ℚ := (⌊x * 10 ^ p + 1 / 2⌋ : ℚ) / 10 ^ p

/-- Decimal digit character. -/
def digitChar (d : Nat) : Char := Char.ofNat (48 + d)

/-- JS number-to-string conversion restricted to integers below 1000
(the byte values joined by `generateFloats`). -/
def jsByteChars (b : Nat) : List Char :=
  if b < 10 then [digitChar b]
  else if b < 100 then [digitChar (b / 10), digitChar (b % 10)]
  else [digitChar (b / 100), digitChar (b / 10 % 10), digitChar (b % 10)]

/-! ## The fair.js module -/

/-- Source `combine`: `(client, server, nonce) => client + server + nonce`.
JS `+` converts the nonce to its decimal string. -/
def combine (client server : String) (nonce : Nat) : String :=
  client ++ server ++ toString nonce

/-- Source `hexToBytes` on the character list of its argument.  `hex.length / 2`
is JS float division; `new Uint8Array(byteCount)` truncates a fractional length
through `ToIndex` (ES2017+), so the buffer holds the floor of `len / 2` bytes
and never fails.  On an odd-length input the loop's final iteration writes past
the end of the typed array and is silently discarded (`parseInt` has no side
effects), so only the first `len / 2` (floor) groups are kept.  Each stored
element passes through `ToUint8` (modulo 256, `NaN` becoming 0). -/
def hexToBytesList (cs : List Char) : List Nat :=
  (List.range (cs.length / 2)).map (fun i =>
    match jsParseIntHexList ((cs.drop (2 * i)).take 2) with
    | none => 0
    | some v => (v % 256).toNat)

/-- Source `hexToBytes`: converts a hex string to a `Uint8Array`. -/
def hexToBytes (hex : String) : List Nat := hexToBytesList hex.data

/-- Source `byteGenerator`: combine, digest, then `hexToBytes(hash.slice(0, 64))`. -/
def byteGenerator (clientseed serverseed : String) (nonce : Nat) : List Nat :=
  hexToBytesList ((sha512HexChars (combine clientseed serverseed nonce)).take 64)

/-- Source `generateInteger`: `parseInt(hash.slice(0, 8), 16) % range + min` with
`range = max - min + 1`.  `none` models a `NaN` result (`parseInt` failing, or a
remainder by zero when `max = min - 1`); JS `%` is the truncating remainder,
which is `Int.tmod`. -/
def generateInteger (clientSeed serverSeed : String) (nonce : Nat) (min max : Int) :
    Option Int :=
  match jsParseIntHexList ((sha512HexChars (combine clientSeed serverSeed nonce)).take 8) with
  | none => none
  | some v => if max - min + 1 = 0 then none else some (Int.tmod v (max - min + 1) + min)

/-- The one JS exception the functions modelled here can raise:
`Number.prototype.toFixed` throws a `RangeError` when its argument lies
outside `[0, 100]` (ECMA-262). -/
inductive JsThrow
  | rangeError
deriving DecidableEq

/-- The rounded value computed by `generateFloats` on `toFixed`'s non-throwing
domain `precision <= 100`: `parseFloat("0." + bytes.join(""))` rounded by
`parseFloat(float.toFixed(precision))`.  `bytes.join("")` concatenates the
decimal representations of the 32 digest bytes. -/
def generateFloats (clientSeed serverSeed : String) (nonce : Nat)
    (precision : Nat := 2) : ℚ :=
  let bytes := byteGenerator clientSeed serverSeed nonce
  let float := jsParseFloatFrac (bytes.flatMap jsByteChars)
  jsToFixed float precision

/-- Source `generateFloats` with its exception behaviour explicit:
`float.toFixed(precision)` throws a `RangeError` for `precision > 100`
(ECMA-262 restricts the digit count to `[0, 100]`); otherwise the call returns
the rounded value `generateFloats`. -/
def generateFloatsRun (clientSeed serverSeed : String) (nonce : Nat)
    (precision : Nat := 2) : Except JsThrow ℚ :=
  if 100 < precision then Except.error JsThrow.rangeError
  else Except.ok (generateFloats clientSeed serverSeed nonce precision)

/-- Source `generateBool`: the comma operator evaluates two identical pure calls
to `generateFloats(..., 10)` and returns `float <= 0.5 ? true : false` on the
second; the first call's value is discarded. -/
def generateBool (clientSeed serverSeed : String) (nonce : Nat) : Bool :=
  if generateFloats clientSeed serverSeed nonce 10 ≤ 1 / 2 then true else false

/-- A weighted option `\x7bid, probability\x7d` as consumed by `selectRandomObject`. -/
structure WeightedOption where
  id : String
  probability : ℚ
deriving DecidableEq

/-- The `for` loop of `selectRandomObject`: walk `normalizedProbabilities is`
accumulating `index`, returning `objects[i]` at the first `i` with
`randomFloat < index`.  The `[]` mismatch branch is unreachable because both
arrays have the same length. -/
def selectLoop (randomFloat : ℚ) :
    List WeightedOption → List ℚ → ℚ → Option WeightedOption
  | _, [], _ => none
  | objects, w :: ws, index =>
    match objects with
    | [] => none
    | o :: os =>
      if randomFloat < index + w then some o else selectLoop randomFloat os ws (index + w)

/-- Source `selectRandomObject`: total probability by a `for` loop, normalized
probabilities by `map`, one draw at precision 10, then the selection loop.
When the weights sum to zero, JS division yields `NaN`/`Infinity` while `ℚ`
division yields 0; in both semantics the loop then selects nothing for a
nonnegative draw, and no claim below depends on that branch beyond this. -/
def selectRandomObject (clientSeed serverSeed : String) (nonce : Nat)
    (objects : List WeightedOption) : Option WeightedOption :=
  let totalProbability := objects.foldl (fun acc obj => acc + obj.probability) 0
  let normalizedProbabilities := objects.map (fun obj => obj.probability / totalProbability)
  let randomFloat := generateFloats clientSeed serverSeed nonce 10
  selectLoop randomFloat objects normalizedProbabilities 0

/-- `selectRandomObject` viewed with its exception behaviour explicit: its body
contains no `throw` and no host operation that can throw for list-of-record
input (its one `toFixed` call uses precision 10, inside `toFixed`'s domain), so
every call returns normally. -/
def selectRandomObjectRun (clientSeed serverSeed : String) (nonce : Nat)
    (objects : List WeightedOption) : Except JsThrow (Option WeightedOption) :=
  Except.ok (selectRandomObject clientSeed serverSeed nonce objects)

/-! ## Spec-side definitions, transcribed from the specification's words -/

/-- Spec 4.4: take the first 8 hex characters of the digest and parse them as an
unsigned 32-bit integer. -/
def specFirst8 (client server : String) (nonce : Nat) : Nat :=
  parseHexDigits ((sha512HexChars (combine client server nonce)).take 8) 0

/-- Spec 4.4: `value mod (max - min + 1)`, plus `min` (mathematical modulus,
nonnegative for the positive range the spec requires; `%` on `Int` is `emod`). -/
def generateIntegerSpec (client server : String) (nonce : Nat) (lo hi : Int) : Int :=
  (specFirst8 client server nonce : Int) % (hi - lo + 1) + lo

/-- Running cumulative sums of a list, starting from `acc`. -/
def cumSums (acc : ℚ) : List ℚ → List ℚ
  | [] => []
  | w :: ws => (acc + w) :: cumSums (acc + w) ws

/-- Spec 4.7: normalize each weight by the total, draw one float at precision 10
from the same nonce, and return the first option whose running cumulative sum
strictly exceeds the draw, or null past the end. -/
def selectWeightedSpec (client server : String) (nonce : Nat)
    (options : List WeightedOption) : Option WeightedOption :=
  let total := (options.map (fun o => o.probability)).sum
  let draw := generateFloats client server nonce 10
  let cums := cumSums 0 (options.map (fun o => o.probability / total))
  match (options.zip cums).find? (fun oc => decide (draw < oc.2)) with
  | some oc => some oc.1
  | none => none

/-- A 2-character group that is valid base-16 (claim C10's notion). -/
def validHexPair (cs : List Char) : Bool :=
  cs.length == 2 && cs.all (fun c => (hexDigitVal c).isSome)

/-! ## Helper lemmas -/

/-- FIPS 180-4 test vector: the embedded SHA-512 matches the standard digest of
"abc", so it computes the same function as Node's crypto module. -/
theorem sha512_vector_abc :
    sha512HexChars "abc" = "ddaf35a193617abacc417349ae20413112e6fa4e89a97ea20a9eeee64b55d39a2192992a274fc1a836ba3c23a3feebbd454d4423643ce80e2a9ac94fa54ca49f".data := by
  decide

theorem hexDigitVal_lt {c : Char} {d : Nat} (h : hexDigitVal c = some d) : d < 16 := by
  unfold hexDigitVal at h
  split_ifs at h <;> simp_all <;> omega

theorem hexDigitVal_hexChar : ∀ d < 16, hexDigitVal (hexChar d) = some d := by decide

theorem hexDigit_ranges {c : Char} {d : Nat} (h : hexDigitVal c = some d) :
    (48 ≤ c.toNat ∧ c.toNat ≤ 57) ∨ (97 ≤ c.toNat ∧ c.toNat ≤ 102) ∨
    (65 ≤ c.toNat ∧ c.toNat ≤ 70) := by
  unfold hexDigitVal at h
  split_ifs at h with h1 h2 h3
  · exact Or.inl h1
  · exact Or.inr (Or.inl h2)
  · exact Or.inr (Or.inr h3)

theorem hexDigit_not_special {c : Char} {d : Nat} (h : hexDigitVal c = some d) :
    isJsWs c = false ∧ c.toNat ≠ 45 ∧ c.toNat ≠ 43 ∧ c.toNat ≠ 120 ∧ c.toNat ≠ 88 := by
  have hr := hexDigit_ranges h
  refine ⟨?_, by omega, by omega, by omega, by omega⟩
  simp only [isJsWs, Bool.or_eq_false_iff, decide_eq_false_iff_not]
  omega

theorem parseHexDigits_lt : ∀ (cs : List Char) (acc : Nat),
    parseHexDigits cs acc < 16 ^ cs.length * (acc + 1) := by
  intro cs
  induction cs with
  | nil => intro acc; simp [parseHexDigits]
  | cons c cs ih =>
    intro acc
    rw [parseHexDigits]
    rcases h : hexDigitVal c with _ | d
    · have h1 : (1 : Nat) ≤ 16 ^ (c :: cs).length := Nat.one_le_pow _ _ (by norm_num)
      calc acc < acc + 1 := Nat.lt_succ_self acc
        _ ≤ 16 ^ (c :: cs).length * (acc + 1) := Nat.le_mul_of_pos_left _ (by omega)
    · have hd : d < 16 := hexDigitVal_lt h
      calc parseHexDigits cs (acc * 16 + d)
          < 16 ^ cs.length * (acc * 16 + d + 1) := ih _
        _ ≤ 16 ^ cs.length * (16 * (acc + 1)) := by
            apply Nat.mul_le_mul_left
            omega
        _ = 16 ^ (c :: cs).length * (acc + 1) := by
            rw [List.length_cons, pow_succ]
            ring

/-- On a nonempty string of hex-digit characters, `parseInt(s, 16)` succeeds and
returns the positional base-16 value. -/
theorem jsParseIntHexList_hexChars (cs : List Char)
    (h : ∀ c ∈ cs, (hexDigitVal c).isSome) (hne : cs ≠ []) :
    jsParseIntHexList cs = some ((parseHexDigits cs 0 : Nat) : Int) := by
  match cs, hne with
  | c0 :: rest, _ =>
    obtain ⟨d0, hval⟩ := Option.isSome_iff_exists.mp (h _ (List.mem_cons_self _ _))
    obtain ⟨hws, h45, h43, _, _⟩ := hexDigit_not_special hval
    rw [jsParseIntHexList]
    simp only [List.dropWhile_cons, hws, Bool.false_eq_true, if_false, ite_false]
    rw [if_neg h45, if_neg (by simp [h45, h43])]
    rcases rest with _ | ⟨c1, rest'⟩
    · simp [hval]
    · obtain ⟨d1, hval1⟩ :=
        Option.isSome_iff_exists.mp (h _ (List.mem_cons_of_mem _ (List.mem_cons_self _ _)))
      obtain ⟨_, _, _, h120, h88⟩ := hexDigit_not_special hval1
      simp [hval, h120, h88]

theorem length_hexCharsOfBytes (bs : List Nat) : (hexCharsOfBytes bs).length = 2 * bs.length := by
  induction bs with
  | nil => rfl
  | cons b bs ih =>
    simp only [hexCharsOfBytes, List.flatMap_cons] at *
    simp [ih]
    omega

theorem mem_hexCharsOfBytes {bs : List Nat} (hb : ∀ b ∈ bs, b < 256) :
    ∀ c ∈ hexCharsOfBytes bs, ∃ d, d < 16 ∧ c = hexChar d := by
  intro c hc
  simp only [hexCharsOfBytes, List.mem_flatMap] at hc
  obtain ⟨b, hbmem, hcc⟩ := hc
  have hblt := hb b hbmem
  simp only [List.mem_cons, List.not_mem_nil, or_false] at hcc
  rcases hcc with rfl | rfl
  · exact ⟨b / 16, by omega, rfl⟩
  · exact ⟨b % 16, by omega, rfl⟩

theorem length_sha512Bytes (msg : List Nat) : (sha512Bytes msg).length = 64 := by
  simp [sha512Bytes, wordToBytesBE]

theorem sha512Bytes_lt (msg : List Nat) : ∀ b ∈ sha512Bytes msg, b < 256 := by
  intro b hb
  simp only [sha512Bytes, wordToBytesBE, List.flatMap_cons, List.flatMap_nil,
    List.append_nil, List.mem_append, List.mem_cons, List.not_mem_nil, or_false] at hb
  rcases hb with h | h <;> omega

theorem mem_sha512HexChars (s : String) :
    ∀ c ∈ sha512HexChars s, ∃ d, d < 16 ∧ c = hexChar d :=
  mem_hexCharsOfBytes (sha512Bytes_lt _)

theorem length_sha512HexChars (s : String) : (sha512HexChars s).length = 128 := by
  rw [sha512HexChars, length_hexCharsOfBytes, length_sha512Bytes]

theorem length_digest_take8 (s : String) : ((sha512HexChars s).take 8).length = 8 := by
  rw [List.length_take, length_sha512HexChars]
  decide

/-- The first 8 digest characters always parse as a hex number. -/
theorem digest_take8_parse (s : String) :
    jsParseIntHexList ((sha512HexChars s).take 8) =
      some ((parseHexDigits ((sha512HexChars s).take 8) 0 : Nat) : Int) := by
  apply jsParseIntHexList_hexChars
  · intro c hc
    obtain ⟨d, hd, rfl⟩ := mem_sha512HexChars s c (List.mem_of_mem_take hc)
    rw [hexDigitVal_hexChar d hd]
    rfl
  · intro hnil
    have h8 := length_digest_take8 s
    rw [hnil] at h8
    simp at h8

/-- The parsed 8-character digest value is an unsigned 32-bit integer. -/
theorem digest_take8_lt (s : String) : parseHexDigits ((sha512HexChars s).take 8) 0 < 2 ^ 32 := by
  have h := parseHexDigits_lt ((sha512HexChars s).take 8) 0
  rw [length_digest_take8] at h
  norm_num at h
  exact h

theorem parseFracDigits_lt : ∀ (cs : List Char) (acc k : Nat), acc < 10 ^ k →
    (parseFracDigits cs acc k).1 < 10 ^ (parseFracDigits cs acc k).2 := by
  intro cs
  induction cs with
  | nil => intro acc k h; exact h
  | cons c cs ih =>
    intro acc k h
    rw [parseFracDigits]
    split
    · apply ih
      rw [pow_succ]
      next hdig => omega
    · exact h

/-- The raw parsed fraction is in the unit interval. -/
theorem jsParseFloatFrac_bounds (cs : List Char) :
    0 ≤ jsParseFloatFrac cs ∧ jsParseFloatFrac cs < 1 := by
  unfold jsParseFloatFrac
  constructor
  · positivity
  · rw [div_lt_one (by positivity)]
    have h := parseFracDigits_lt cs 0 0 (by norm_num)
    calc ((parseFracDigits cs 0 0).1 : ℚ) < ((10 ^ (parseFracDigits cs 0 0).2 : Nat) : ℚ) := by
          exact_mod_cast h
      _ = 10 ^ (parseFracDigits cs 0 0).2 := by push_cast; ring

theorem jsToFixed_nonneg {x : ℚ} (h : 0 ≤ x) (p : Nat) : 0 ≤ jsToFixed x p := by
  unfold jsToFixed
  apply div_nonneg _ (by positivity)
  have hfl : (0 : ℤ) ≤ ⌊x * 10 ^ p + 1 / 2⌋ := Int.floor_nonneg.mpr (by positivity)
  exact_mod_cast hfl

theorem jsToFixed_le_one {x : ℚ} (h0 : 0 ≤ x) (h1 : x < 1) (p : Nat) : jsToFixed x p ≤ 1 := by
  unfold jsToFixed
  rw [div_le_one (by positivity)]
  have hfl : ⌊x * 10 ^ p + 1 / 2⌋ < 10 ^ p + 1 := by
    apply Int.floor_lt.mpr
    push_cast
    have hx : x * 10 ^ p < 1 * 10 ^ p := by
      apply mul_lt_mul_of_pos_right h1 (by positivity)
    nlinarith
  have hle : ⌊x * 10 ^ p + 1 / 2⌋ ≤ 10 ^ p := by omega
  calc ((⌊x * 10 ^ p + 1 / 2⌋ : ℤ) : ℚ) ≤ (((10 : ℤ) ^ p : ℤ) : ℚ) := by exact_mod_cast hle
    _ = 10 ^ p := by push_cast; ring

theorem jsToFixed_zero_cases {x : ℚ} (h0 : 0 ≤ x) (h1 : x < 1) :
    jsToFixed x 0 = 0 ∨ jsToFixed x 0 = 1 := by
  unfold jsToFixed
  have hge : (0 : ℤ) ≤ ⌊x * 10 ^ 0 + 1 / 2⌋ := Int.floor_nonneg.mpr (by positivity)
  have hlt : ⌊x * 10 ^ 0 + 1 / 2⌋ < 2 := by
    apply Int.floor_lt.mpr
    push_cast
    linarith
  have hcases : ⌊x * 10 ^ 0 + 1 / 2⌋ = 0 ∨ ⌊x * 10 ^ 0 + 1 / 2⌋ = 1 := by omega
  rcases hcases with h | h <;> rw [h] <;> norm_num

/-- The selection loop returns the first option whose running cumulative sum
strictly exceeds the draw. -/
theorem selectLoop_eq_find (rf : ℚ) : ∀ (ws : List ℚ) (os : List WeightedOption) (acc : ℚ),
    selectLoop rf os ws acc =
      (match (os.zip (cumSums acc ws)).find? (fun oc => decide (rf < oc.2)) with
       | some oc => some oc.1
       | none => none) := by
  intro ws
  induction ws with
  | nil => intro os acc; cases os <;> simp [selectLoop, cumSums]
  | cons w ws ih =>
    intro os acc
    cases os with
    | nil => simp [selectLoop, cumSums]
    | cons o os' =>
      simp only [selectLoop, cumSums, List.zip_cons_cons, List.find?]
      by_cases h : rf < acc + w
      · simp [h]
      · simp [h, ih]
        rfl

/-- Reduction of `generateInteger` once its `parseInt` call is known to succeed. -/
theorem generateInteger_parse_red {client server : String} {nonce : Nat} (lo hi : Int)
    {v : Int}
    (hp : jsParseIntHexList ((sha512HexChars (combine client server nonce)).take 8) = some v) :
    generateInteger client server nonce lo hi =
      if hi - lo + 1 = 0 then none else some (Int.tmod v (hi - lo + 1) + lo) := by
  unfold generateInteger
  rw [hp]

/-- The source's summation loop computes the sum of the weights. -/
theorem foldl_add_prob (objects : List WeightedOption) :
    objects.foldl (fun acc obj => acc + obj.probability) 0 =
      (objects.map (fun o => o.probability)).sum := by
  rw [List.sum_eq_foldl, List.foldl_map]

/-! ## Claim theorems -/

/-- C1: for every fixed tuple of client seed, server seed and nonce (plus any
additional parameters), each public generator function returns the identical
output on every invocation; the output is a function of the inputs only.  All
generators are pure functions of their arguments in this embedding, mirroring
the source's stateless pipeline, so equal inputs give equal outputs. -/
theorem fairjs_C1_determinism (client client' server server' : String)
    (nonce nonce' : Nat) (hc : client = client') (hs : server = server')
    (hn : nonce = nonce') (lo hi : Int) (p : Nat) (options : List WeightedOption) :
    generateInteger client server nonce lo hi = generateInteger client' server' nonce' lo hi ∧
    generateFloats client server nonce p = generateFloats client' server' nonce' p ∧
    generateBool client server nonce = generateBool client' server' nonce' ∧
    selectRandomObject client server nonce options =
      selectRandomObject client' server' nonce' options := by
  subst hc hs hn
  exact ⟨rfl, rfl, rfl, rfl⟩

theorem fairjs_C1_witness :
    ("a" : String) = "a" ∧ ("b" : String) = "b" ∧ (0 : Nat) = 0 ∧
    (generateInteger "a" "b" 0 1 6 = generateInteger "a" "b" 0 1 6 ∧
     generateFloats "a" "b" 0 10 = generateFloats "a" "b" 0 10 ∧
     generateBool "a" "b" 0 = generateBool "a" "b" 0 ∧
     selectRandomObject "a" "b" 0 [] = selectRandomObject "a" "b" 0 []) :=
  ⟨rfl, rfl, rfl, fairjs_C1_determinism "a" "a" "b" "b" 0 0 rfl rfl rfl 1 6 10 []⟩

/-- C2: for `max >= min`, `generateInteger` parses the first 8 hex characters of
the digest of the combined input as an unsigned 32-bit integer, reduces it
modulo `max - min + 1` and adds `min`; consequently the result lies in
`[min, max]` inclusive. -/
theorem fairjs_C2_generateInteger (client server : String) (nonce : Nat)
    (lo hi : Int) (h : lo ≤ hi) :
    generateInteger client server nonce lo hi =
      some (generateIntegerSpec client server nonce lo hi) ∧
    specFirst8 client server nonce < 2 ^ 32 ∧
    lo ≤ generateIntegerSpec client server nonce lo hi ∧
    generateIntegerSpec client server nonce lo hi ≤ hi := by
  have hmod0 : 0 ≤ ((specFirst8 client server nonce : ℤ)) % (hi - lo + 1) :=
    Int.emod_nonneg _ (by omega)
  have hmodlt : ((specFirst8 client server nonce : ℤ)) % (hi - lo + 1) < hi - lo + 1 :=
    Int.emod_lt_of_pos _ (by omega)
  refine ⟨?_, digest_take8_lt _,
    by unfold generateIntegerSpec; linarith,
    by unfold generateIntegerSpec; linarith⟩
  rw [generateInteger_parse_red lo hi (digest_take8_parse _),
    if_neg (by omega : ¬(hi - lo + 1 = 0))]
  unfold generateIntegerSpec specFirst8
  rw [Int.tmod_eq_emod (by positivity) (by omega)]

theorem fairjs_C2_witness :
    (1 : Int) ≤ 6 ∧
    (generateInteger "a" "b" 0 1 6 = some (generateIntegerSpec "a" "b" 0 1 6) ∧
     specFirst8 "a" "b" 0 < 2 ^ 32 ∧
     1 ≤ generateIntegerSpec "a" "b" 0 1 6 ∧ generateIntegerSpec "a" "b" 0 1 6 ≤ 6) :=
  ⟨by decide, fairjs_C2_generateInteger "a" "b" 0 1 6 (by decide)⟩

/-- C3: `generateBool` returns `true` exactly when `generateFloats` at
precision 10 on the same three inputs is at most `0.5`; otherwise `false`. -/
theorem fairjs_C3_generateBool (client server : String) (nonce : Nat) :
    generateBool client server nonce = true ↔
      generateFloats client server nonce 10 ≤ 1 / 2 := by
  by_cases h : generateFloats client server nonce 10 ≤ 1 / 2 <;> simp [generateBool, h]

/-- C4 fails on the code: `generateInteger` performs no range validation at all.
At `min = 5 > max = 1` it does not fail but returns the integer 7
(`parseInt("bce31819", 16) % -3 + 5`). -/
theorem fairjs_C4_counterexample : generateInteger "a" "b" 0 5 1 = some 7 := by decide

/-- C4 amended: with `max < min` the function raises no error; it returns an
integer in every case except `max = min - 1`, where the remainder by zero
produces `NaN` (no integer).  No `InvalidRangeError` exists in the code. -/
theorem fairjs_C4_amended (client server : String) (nonce : Nat) (lo hi : Int)
    (h : hi < lo) :
    generateInteger client server nonce lo hi = none ↔ hi = lo - 1 := by
  rw [generateInteger_parse_red lo hi (digest_take8_parse _)]
  by_cases h0 : hi - lo + 1 = 0
  · rw [if_pos h0]
    simp
    omega
  · rw [if_neg h0]
    simp
    omega

theorem fairjs_C4_amended_witness :
    (1 : Int) < 5 ∧ (generateInteger "a" "b" 0 5 1 = none ↔ (1 : Int) = 5 - 1) :=
  ⟨by decide, fairjs_C4_amended "a" "b" 0 5 1 (by decide)⟩

/-- C5 fails on the code: `hexToBytes` has no byte-count parameter and reports
no hex errors.  On the invalid hex string "zz" it succeeds and returns the
single byte 0 (`parseInt("zz", 16)` is `NaN`, stored as 0), instead of failing
with `InvalidHexError`. -/
theorem fairjs_C5_counterexample :
    hexToBytes "zz" = [0] ∧ (∃ c ∈ "zz".data, hexDigitVal c = none) := by
  exact ⟨by decide, by decide⟩

/-- C5 amended: `hexToBytes` takes no byte count and never fails: every input
— valid hex or not, even or odd length — yields a buffer of `hex.length / 2`
(floor) bytes.  Invalid groups are parsed by `parseInt`'s longest-valid-prefix
rule with `NaN` stored as 0, an odd trailing character is silently dropped by
the truncated typed-array length (e.g. `hexToBytes("zzz") = [0]`), and neither
`InvalidHexError` nor `InsufficientLengthError` exists in the code. -/
theorem fairjs_C5_amended (hex : String) :
    (hexToBytes hex).length = hex.length / 2 ∧ hexToBytes "zzz" = [0] := by
  constructor
  · show (hexToBytesList hex.data).length = hex.length / 2
    unfold hexToBytesList
    simp only [List.length_map, List.length_range]
    rfl
  · decide

/-- C6 fails on the code: `selectRandomObject` applied to an empty options list
does not fail with `EmptyOptionsError`; it returns normally with `null`. -/
theorem fairjs_C6_counterexample :
    selectRandomObjectRun "a" "b" 0 [] = Except.ok none := rfl

/-- C6 amended: `selectRandomObject` validates nothing: every call — empty
options, negative weights, zero-sum weights included — returns normally (no
`EmptyOptionsError` or `InvalidWeightError` exists), and the empty list yields
`null`. -/
theorem fairjs_C6_amended (client server : String) (nonce : Nat)
    (options : List WeightedOption) :
    selectRandomObjectRun client server nonce options =
      Except.ok (selectRandomObject client server nonce options) ∧
    selectRandomObject client server nonce [] = none :=
  ⟨rfl, rfl⟩

/-- C7: on a valid non-empty options sequence, `selectRandomObject` agrees with
the specification algorithm: one draw at precision 10 from the same nonce,
weights normalized by the total, the options walked in input order under a
running cumulative sum, the first option whose cumulative sum strictly exceeds
the draw returned, and `null` (not an error) when the draw lands past the final
cumulative sum; ties are inherently broken in favour of the earlier option. -/
theorem fairjs_C7_selectWeighted (client server : String) (nonce : Nat)
    (options : List WeightedOption) (hne : options ≠ [])
    (hw : ∀ o ∈ options, 0 ≤ o.probability)
    (hs : 0 < (options.map (fun o => o.probability)).sum) :
    selectRandomObject client server nonce options =
      selectWeightedSpec client server nonce options := by
  simp only [selectRandomObject, selectWeightedSpec]
  rw [foldl_add_prob]
  exact selectLoop_eq_find _ _ _ _

theorem fairjs_C7_witness :
    (([⟨"x", 1⟩, ⟨"y", 1⟩] : List WeightedOption) ≠ []) ∧
    (∀ o ∈ ([⟨"x", 1⟩, ⟨"y", 1⟩] : List WeightedOption), 0 ≤ o.probability) ∧
    0 < (([⟨"x", 1⟩, ⟨"y", 1⟩] : List WeightedOption).map (fun o => o.probability)).sum ∧
    selectRandomObject "a" "b" 0 [⟨"x", 1⟩, ⟨"y", 1⟩] =
      selectWeightedSpec "a" "b" 0 [⟨"x", 1⟩, ⟨"y", 1⟩] :=
  ⟨by simp, by simp, by norm_num,
    fairjs_C7_selectWeighted "a" "b" 0 [⟨"x", 1⟩, ⟨"y", 1⟩] (by simp) (by simp) (by norm_num)⟩

/-- C8 fails on the code: at client seed "a", server seed "b", nonce 17 and
precision 1 the digest bytes begin 97, 157, ..., the raw fraction is about
0.97, and rounding to one decimal digit yields exactly 1 — outside `[0, 1)`. -/
theorem fairjs_C8_counterexample :
    generateFloats "a" "b" 17 1 = 1 ∧ ¬ generateFloats "a" "b" 17 1 < 1 := by
  have hstep : parseFracDigits ((byteGenerator "a" "b" 17).flatMap jsByteChars) 0 0 =
      (9715758245131217250898875233236198567888391363958412164852511667917156231117216, 79) := by
    decide
  have hval : generateFloats "a" "b" 17 1 = 1 := by
    have hfl :
        ⌊(9715758245131217250898875233236198567888391363958412164852511667917156231117216 : ℚ) /
            10 ^ 79 * 10 ^ 1 + 1 / 2⌋ = 10 := by
      rw [Int.floor_eq_iff]
      norm_num
    simp only [generateFloats, jsParseFloatFrac, hstep, jsToFixed]
    push_cast
    rw [hfl]
    norm_num
  exact ⟨hval, by rw [hval]; exact lt_irrefl 1⟩

/-- C8 amended: on `toFixed`'s domain `precision <= 100` the call returns
normally and the output lies in the closed interval `[0, 1]` — rounding can
reach exactly 1 (the counterexample exhibits this at precision 1), so `[0, 1)`
is wrong for precision ≥ 1 as well; at precision 0 the output is exactly 0 or
exactly 1; and for `precision > 100` the program throws `toFixed`'s
`RangeError` and produces no output at all. -/
theorem fairjs_C8_amended (client server : String) (nonce p : Nat) :
    (p ≤ 100 →
      generateFloatsRun client server nonce p =
        Except.ok (generateFloats client server nonce p) ∧
      0 ≤ generateFloats client server nonce p ∧
      generateFloats client server nonce p ≤ 1) ∧
    (100 < p →
      generateFloatsRun client server nonce p = Except.error JsThrow.rangeError) ∧
    (generateFloats client server nonce 0 = 0 ∨ generateFloats client server nonce 0 = 1) := by
  obtain ⟨h0, h1⟩ :=
    jsParseFloatFrac_bounds ((byteGenerator client server nonce).flatMap jsByteChars)
  refine ⟨fun hp => ⟨?_, ?_, ?_⟩, fun hp => ?_, ?_⟩
  · unfold generateFloatsRun
    rw [if_neg (by omega)]
  · simp only [generateFloats]
    exact jsToFixed_nonneg h0 p
  · simp only [generateFloats]
    exact jsToFixed_le_one h0 h1 p
  · unfold generateFloatsRun
    rw [if_pos hp]
  · simp only [generateFloats]
    exact jsToFixed_zero_cases h0 h1

theorem fairjs_C8_amended_witness :
    ((2 : Nat) ≤ 100 ∧
      (generateFloatsRun "a" "b" 0 2 = Except.ok (generateFloats "a" "b" 0 2) ∧
       0 ≤ generateFloats "a" "b" 0 2 ∧ generateFloats "a" "b" 0 2 ≤ 1)) ∧
    (100 < (101 : Nat) ∧
      generateFloatsRun "a" "b" 0 101 = Except.error JsThrow.rangeError) :=
  ⟨⟨by decide, (fairjs_C8_amended "a" "b" 0 2).1 (by decide)⟩,
   ⟨by decide, (fairjs_C8_amended "a" "b" 0 101).2.1 (by decide)⟩⟩

/-- C9: `combine` is the separator-free concatenation of the client seed, the
server seed and the decimal string of the nonce; in particular
`combine("a", "b", 0) = "ab0"`. -/
theorem fairjs_C9_combine (client server : String) (nonce : Nat) :
    combine client server nonce = client ++ server ++ Nat.repr nonce ∧
    combine "a" "b" 0 = "ab0" :=
  ⟨rfl, by decide⟩

/-- C10 fails on the code: on the even-length input "5z", whose single group is
not valid base-16, `hexToBytes` stores 5 — `parseInt("5z", 16)` parses the
valid prefix "5" — not the 0 the claim predicts for invalid groups. -/
theorem fairjs_C10_counterexample :
    hexToBytes "5z" = [5] ∧ validHexPair "5z".data = false ∧
    hexToBytes "5z" ≠ [0] := by
  exact ⟨by decide, by decide, by decide⟩

/-- C10 amended: on an even-length input `hexToBytes` returns without error a
buffer of length `hex.length / 2`; byte `i` is the base-16 value of the
2-character group at offset `2i` whenever that group is two valid hex digits,
while an invalid group is parsed by `parseInt`'s longest-valid-prefix rule
(yielding 0 only when its first character is invalid). -/
theorem fairjs_C10_amended (hex : String) (heven : hex.length % 2 = 0) :
    ∃ bs, hexToBytes hex = bs ∧ bs.length = hex.length / 2 ∧
      ∀ (i : Nat) (hi : i < bs.length) (c1 c2 : Char) (d1 d2 : Nat),
        (hex.data.drop (2 * i)).take 2 = [c1, c2] →
        hexDigitVal c1 = some d1 → hexDigitVal c2 = some d2 →
        bs.get ⟨i, hi⟩ = 16 * d1 + d2 := by
  refine ⟨(List.range (hex.data.length / 2)).map (fun i =>
      match jsParseIntHexList ((hex.data.drop (2 * i)).take 2) with
      | none => 0
      | some v => (v % 256).toNat), ?_, ?_, ?_⟩
  · show hexToBytesList hex.data = _
    unfold hexToBytesList
    rfl
  · simp only [List.length_map, List.length_range]
    rfl
  · intro i hi c1 c2 d1 d2 htake h1 h2
    have hd1 : d1 < 16 := hexDigitVal_lt h1
    have hd2 : d2 < 16 := hexDigitVal_lt h2
    have hilt : i < hex.data.length / 2 := by
      simpa using hi
    have hparse : jsParseIntHexList ((hex.data.drop (2 * i)).take 2) =
        some ((16 * d1 + d2 : Nat) : Int) := by
      rw [htake]
      have := jsParseIntHexList_hexChars [c1, c2]
        (by
          intro c hc
          simp only [List.mem_cons, List.not_mem_nil, or_false] at hc
          rcases hc with rfl | rfl
          · rw [h1]; rfl
          · rw [h2]; rfl)
        (by simp)
      rw [this]
      congr 1
      simp [parseHexDigits, h1, h2]
      omega
    rw [List.get_map]
    simp only [List.get_eq_getElem, List.getElem_range, hparse]
    omega

theorem fairjs_C10_amended_witness :
    ("5aff" : String).length % 2 = 0 ∧
    (∃ bs, hexToBytes "5aff" = bs ∧ bs.length = ("5aff" : String).length / 2 ∧
      ∀ (i : Nat) (hi : i < bs.length) (c1 c2 : Char) (d1 d2 : Nat),
        (("5aff" : String).data.drop (2 * i)).take 2 = [c1, c2] →
        hexDigitVal c1 = some d1 → hexDigitVal c2 = some d2 →
        bs.get ⟨i, hi⟩ = 16 * d1 + d2) :=
  ⟨by decide, fairjs_C10_amended "5aff" (by decide)⟩
